import Mathlib

/-!
Verification of the tabular transformation pipeline engine of the ETL-Studio
repository (FastAPI web layer in `src/web/routes.py`, retail ETL under
`src/etl/retail/`, pipeline recording utilities in `src/utils/pipeline.py`).

Datasets are modelled as a header (ordered column names) together with a list
of rows, each row an ordered list of cell values; a cell is null, a rational
number, or a string.  Pandas DataFrame operations used by the repository are
embedded as pure functions over this model.  Modules of the repository that
are imported by the code under `src/` but whose files are absent
(`src/utils/pipeline.py`, `src/etl/retail/transform.py`,
`src/etl/retail/load.py`, `src/etl/retail/run.py`) are modelled from the
specification; each such definition carries a doc comment starting with
`Modelled from the spec:`.
-/

/-- A cell value of a tabular dataset: null, numeric, or text. -/
inductive Value where
  | null : Value
  | num : ℚ → Value
  | str : String → Value
deriving DecidableEq, Repr

/-- A dataset: ordered named columns with ordered rows aligned across columns. -/
structure Dataset where
  header : List String
  rows : List (List Value)
deriving DecidableEq, Repr

/-- Well-formedness: every row has exactly one cell per column. -/
def Dataset.WF (d : Dataset) : Prop :=
  ∀ r ∈ d.rows, r.length = d.header.length

instance (d : Dataset) : Decidable d.WF :=
  inferInstanceAs (Decidable (∀ r ∈ d.rows, r.length = d.header.length))

/-- Index of a column name in a header (first occurrence). -/
def colIdx (hdr : List String) (name : String) : Option ℕ :=
  match hdr with
  | [] => none
  | h :: hs => if h = name then some 0 else (colIdx hs name).map (· + 1)

/-- The cell of a row under a given column name, if the column exists. -/
def getCell (hdr : List String) (row : List Value) (name : String) : Option Value :=
  match colIdx hdr name with
  | some i => row.get? i
  | none => none

/-- The values of the named column, one per row (null when a row is short). -/
def colByName (d : Dataset) (name : String) : List Value :=
  d.rows.map (fun r => (getCell d.header r name).getD Value.null)

/-- The values of the column at position `j`, one per row. -/
def colAt (d : Dataset) (j : ℕ) : List Value :=
  d.rows.map (fun r => r.getD j Value.null)

/-- First 10 rows, as rendered by `get_preview` in `src/web/routes.py`. -/
def head10 (d : Dataset) : Dataset :=
  ⟨d.header, d.rows.take 10⟩

/-! ### Association-list stores

`src/web/routes.py` keeps per-source mutable state in two process-wide
dictionaries, `app.state.df_store` and `app.state.pipeline_store`, keyed by
source id.  We model a dictionary as an association list. -/

/-- First value bound to key `k`, if any. -/
def lookupKey {κ α : Type} [DecidableEq κ] (k : κ) : List (κ × α) → Option α
  | [] => none
  | p :: ps => if p.1 = k then some p.2 else lookupKey k ps

/-- Bind key `k` to `v`, replacing the first existing binding or appending. -/
def setKey {κ α : Type} [DecidableEq κ] (k : κ) (v : α) : List (κ × α) → List (κ × α)
  | [] => [(k, v)]
  | p :: ps => if p.1 = k then (k, v) :: ps else p :: setKey k v ps

theorem lookupKey_setKey_self {κ α : Type} [DecidableEq κ] (k : κ) (v : α)
    (l : List (κ × α)) : lookupKey k (setKey k v l) = some v := by
  induction l with
  | nil => simp [setKey, lookupKey]
  | cons p ps ih =>
    by_cases h : p.1 = k
    · simp [setKey, h, lookupKey]
    · simp [setKey, h, lookupKey, ih]

theorem lookupKey_setKey_ne {κ α : Type} [DecidableEq κ] (k k' : κ) (v : α)
    (l : List (κ × α)) (hne : k' ≠ k) :
    lookupKey k' (setKey k v l) = lookupKey k' l := by
  induction l with
  | nil => simp [setKey, lookupKey, Ne.symm hne]
  | cons p ps ih =>
    by_cases h : p.1 = k
    · subst h
      simp [setKey, lookupKey, Ne.symm hne]
    · simp [setKey, h, lookupKey, ih]

theorem lookupKey_filter_mem {α : Type} (k : ℕ) (ids : List ℕ)
    (l : List (ℕ × α)) (hmem : k ∈ ids) :
    lookupKey k (l.filter (fun p => !(decide (p.1 ∈ ids)))) = none := by
  induction l with
  | nil => simp [lookupKey]
  | cons p ps ih =>
    by_cases h : p.1 ∈ ids
    · simp [List.filter_cons, h, ih]
    · have hne : ¬ (p.1 = k) := fun he => h (he ▸ hmem)
      simp [List.filter_cons, h, lookupKey, hne, ih]

theorem lookupKey_filter_not_mem {α : Type} (k : ℕ) (ids : List ℕ)
    (l : List (ℕ × α)) (hmem : k ∉ ids) :
    lookupKey k (l.filter (fun p => !(decide (p.1 ∈ ids)))) = lookupKey k l := by
  induction l with
  | nil => simp
  | cons p ps ih =>
    by_cases h : p.1 ∈ ids
    · have hne : ¬ (p.1 = k) := fun he => hmem (he ▸ h)
      simp [List.filter_cons, h, lookupKey, hne, ih]
    · simp [List.filter_cons, h, lookupKey, ih]

/-! ### Cleaning operators

`src/etl/retail/transform.py` is imported by `tests/test_retail_transform.py`
and `src/etl/retail/run.py`, but the file itself is absent from the source
tree; the operators below are modelled from the specification (section 4.1)
and checked against the assertions of the surviving tests. -/

/-- A row contains a null cell. -/
def rowHasNull (row : List Value) : Bool :=
  row.any (fun v => v == Value.null)

/-- Modelled from the spec: `_drop_na_rows` of the absent
`src/etl/retail/transform.py` — removes any row containing a null in any
column, preserving the relative order of the remaining rows.  This is also
the embedding of the pandas call `df.dropna(how="any")` performed by
`clean_source_drop_null_rows` in `src/web/routes.py`. -/
def drop_na_rows (d : Dataset) : Dataset :=
  ⟨d.header, d.rows.filter (fun r => !(rowHasNull r))⟩

/-- A row has a null cell in one of the named columns (absent names ignored). -/
def rowHasNullIn (hdr : List String) (cols : List String) (row : List Value) : Bool :=
  cols.any (fun c => getCell hdr row c == some Value.null)

/-- Keep exactly the columns (and their cells) whose name satisfies `keep`,
in their original order; the embedding of `df[remaining_cols]`. -/
def selectCols (keep : String → Bool) (d : Dataset) : Dataset :=
  ⟨d.header.filter keep,
   d.rows.map (fun r => ((d.header.zip r).filter (fun p => keep p.1)).map (fun p => p.2))⟩

/-- Remove the named columns that are present; absent names are silently
ignored.  Embedding of `remaining_cols = [c for c in df.columns if c not in
columns]; df[remaining_cols]` from `clean_source_drop_columns` in
`src/web/routes.py` (and of the spec's `DropColumns` replay case). -/
def dropColumnsOp (cols : List String) (d : Dataset) : Dataset :=
  selectCols (fun h => !(cols.contains h)) d

/-- Strip leading and trailing whitespace, as Python `str.strip()`. -/
def strStrip (s : String) : String :=
  ⟨((s.data.dropWhile Char.isWhitespace).reverse.dropWhile Char.isWhitespace).reverse⟩

/-- Python `str(value)` for a non-null cell value. -/
def valueToStr : Value → String
  | Value.null => ""
  | Value.num q => if q.den = 1 then toString q.num else toString q
  | Value.str s => s

/-- Coerce a cell to trimmed text; nulls remain null (spec section 4.1). -/
def coerceTrim : Value → Value
  | Value.null => Value.null
  | v => Value.str (strStrip (valueToStr v))

/-- Create or overwrite the column `name` with `vals` (one per row): an
existing column is replaced in place, a new column is appended at the end,
as `df[name] = vals` does in pandas. -/
def setColumn (d : Dataset) (name : String) (vals : List Value) : Dataset :=
  match colIdx d.header name with
  | some i => ⟨d.header, (d.rows.zip vals).map (fun rv => rv.1.set i rv.2)⟩
  | none => ⟨d.header ++ [name], (d.rows.zip vals).map (fun rv => rv.1 ++ [rv.2])⟩

/-- Modelled from the spec: `_standardize_key` of the absent
`src/etl/retail/transform.py` — scans `candidates` in order, picks the first
column name present, and creates/overwrites column `target` with that
column's values coerced to trimmed text (nulls remain null); with no
candidate present the dataset is returned unchanged. -/
def standardize_key (d : Dataset) (candidates : List String) (target : String) : Dataset :=
  match candidates.find? (fun c => d.header.contains c) with
  | none => d
  | some c => setColumn d target ((colByName d c).map coerceTrim)

/-- Drop later occurrences of elements whose key under `f` was already seen;
keeps the first occurrence in the original order. -/
def dedupBy {α β : Type} [DecidableEq β] (f : α → β) : List α → List β → List α
  | [], _ => []
  | x :: xs, seen =>
    if f x ∈ seen then dedupBy f xs seen else x :: dedupBy f xs (f x :: seen)

/-- The duplicate-detection key of a row: the whole row when no subset is
given, otherwise the tuple of cells under the subset columns (a subset name
absent from the header contributes `none` uniformly for all rows). -/
def rowKey (hdr : List String) (subset : Option (List String)) (row : List Value) :
    List (Option Value) :=
  match subset with
  | none => row.map some
  | some cols => cols.map (getCell hdr row)

/-- Modelled from the spec: `_remove_duplicates` of the absent
`src/etl/retail/transform.py` — rows are duplicates when all subset-column
values compare equal (full-row equality without a subset); keeps the first
occurrence in original row order. -/
def remove_duplicates (d : Dataset) (subset : Option (List String)) : Dataset :=
  ⟨d.header, dedupBy (rowKey d.header subset) d.rows []⟩

/-! ### IQR outlier removal -/

/-- Is the cell a (non-null) number? -/
def isNumValue : Value → Bool
  | Value.num _ => true
  | _ => false

/-- Is the cell null or a number? -/
def numOrNull : Value → Bool
  | Value.num _ => true
  | Value.null => true
  | _ => false

/-- A column carries a numeric dtype: every cell is a number or null, and at
least one cell is a number. -/
def colIsNumeric (vs : List Value) : Bool :=
  vs.all numOrNull && vs.any isNumValue

/-- The non-null numeric entries of a column. -/
def nonNullNums (vs : List Value) : List ℚ :=
  vs.filterMap (fun v =>
    match v with
    | Value.num q => some q
    | _ => none)

/-- The `k/4` quantile of a nonempty list, by linear interpolation between
order statistics (the pandas default `quantile` method). -/
def quartileOf (k : ℕ) (vs : List ℚ) : ℚ :=
  let s := List.insertionSort (· ≤ ·) vs
  let idx := k * (s.length - 1)
  let h := idx / 4
  let r := idx % 4
  let a := s.getD h 0
  let b := s.getD (h + 1) a
  a + (r : ℚ) / 4 * (b - a)

/-- The IQR bounds of a column: `[Q1 - 1.5 IQR, Q3 + 1.5 IQR]` computed over
the column's non-null values. -/
def iqrBounds (vs : List Value) : ℚ × ℚ :=
  let nums := nonNullNums vs
  let q1 := quartileOf 1 nums
  let q3 := quartileOf 3 nums
  let iqr := q3 - q1
  (q1 - 3/2 * iqr, q3 + 3/2 * iqr)

/-- Positions of the numeric columns of a dataset. -/
def numericIdxs (d : Dataset) : List ℕ :=
  (List.range d.header.length).filter (fun j => colIsNumeric (colAt d j))

/-- A numeric cell lying strictly outside the given bounds (a null or text
cell is never outside, as NaN comparisons are false in pandas). -/
def valueOutside (lo hi : ℚ) : Value → Bool
  | Value.num q => decide (q < lo) || decide (hi < q)
  | _ => false

/-- Modelled from the spec: `_remove_outliers_iqr` of the absent
`src/etl/retail/transform.py` — a row is removed when any numeric column's
value lies outside that column's own IQR bounds; with no numeric columns the
dataset passes through unchanged. -/
def remove_outliers_iqr (d : Dataset) : Dataset :=
  let bounds := (numericIdxs d).map (fun j => (j, iqrBounds (colAt d j)))
  ⟨d.header,
   d.rows.filter (fun r =>
     !(bounds.any (fun jb => valueOutside jb.2.1 jb.2.2 (r.getD jb.1 Value.null))))⟩

/-- A row lies within all its dataset's per-numeric-column IQR bounds. -/
def RowWithin (d : Dataset) (r : List Value) : Prop :=
  ∀ j ∈ numericIdxs d,
    valueOutside (iqrBounds (colAt d j)).1 (iqrBounds (colAt d j)).2
      (r.getD j Value.null) = false

/-! ### Left-join enrichment -/

/-- The column names of `hdr` other than the join key. -/
def nonKeyCols (hdr : List String) (key : String) : List String :=
  hdr.filter (fun h => h != key)

/-- The cells of a right-side row other than its key cell. -/
def extractNonKey (hdr : List String) (key : String) (rr : List Value) : List Value :=
  ((hdr.zip rr).filter (fun p => p.1 != key)).map (fun p => p.2)

/-- Modelled from the spec: one pandas-style left merge on `key`, performed
only when the key column exists on both sides (otherwise the left dataset is
returned untouched).  Every left row is kept exactly once; the first matching
right row contributes its non-key cells, and an unmatched left row gets
nulls. -/
def leftJoinOn (key : String) (left right : Dataset) : Dataset :=
  if left.header.contains key && right.header.contains key then
    ⟨left.header ++ nonKeyCols right.header key,
     left.rows.map (fun r =>
       match right.rows.find? (fun rr =>
           getCell right.header rr key == getCell left.header r key) with
       | some rr => r ++ extractNonKey right.header key rr
       | none => r ++ (nonKeyCols right.header key).map (fun _ => Value.null))⟩
  else left

/-- Modelled from the spec: `join_sales_products_stores` of the absent
`src/etl/retail/transform.py` — left join of sales with products on
`product_id`, then with stores on `store_id`, each join independently
skipped when its key column is missing on either side. -/
def join_sales_products_stores (sales products stores : Dataset) : Dataset :=
  leftJoinOn "store_id" (leftJoinOn "product_id" sales products) stores

/-! ### Step model, recording and replay

`src/utils/pipeline.py` is imported by `src/web/routes.py` but the file is
absent from the source tree; the step type, the recording helpers and the
replay executor are modelled from the specification (sections 4.4 and 4.5). -/

/-- Modelled from the spec: the closed variant set of recorded cleaning
operations (section 3, Step). -/
inductive Step where
  | dropRowsWithNulls : Option (List String) → Step
  | dropColumns : List String → Step
deriving DecidableEq, Repr

/-- Modelled from the spec: replay of one recorded step (section 4.5). -/
def applyStep (d : Dataset) : Step → Dataset
  | Step.dropRowsWithNulls none => drop_na_rows d
  | Step.dropRowsWithNulls (some subset) =>
      ⟨d.header, d.rows.filter (fun r => !(rowHasNullIn d.header subset r))⟩
  | Step.dropColumns cols => dropColumnsOp cols d

/-- Modelled from the spec: `apply_pipeline_to_df` of the absent
`src/utils/pipeline.py` — starts from the raw dataset and applies each
recorded step in order; an empty step list returns the raw dataset
unchanged. -/
def apply_pipeline_to_df (raw : Dataset) (steps : List Step) : Dataset :=
  steps.foldl applyStep raw

/-- Modelled from the spec: `add_step` of the absent `src/utils/pipeline.py`
— appends one step to the ordered list for `sid`, creating the list if
absent (section 4.4). -/
def addStep (sid : ℕ) (s : Step) (ps : List (ℕ × List Step)) : List (ℕ × List Step) :=
  match lookupKey sid ps with
  | some steps => setKey sid (steps ++ [s]) ps
  | none => setKey sid [s] ps

/-! ### The interactive web layer (`src/web/routes.py`) -/

/-- The per-process mutable state of the web app: the in-memory working
datasets (`app.state.df_store`) and the per-source recorded pipelines
(`app.state.pipeline_store`). -/
structure AppState where
  dfStore : List (ℕ × Dataset)
  pipelineStore : List (ℕ × List Step)
deriving DecidableEq, Repr

/-- The observable response of a route handler: either a rendered preview
(built by `get_preview` from the first 10 rows of a dataset, prefixed with a
message), or a bare message page. -/
inductive RouteResponse where
  | preview (sourceId : ℕ) (message : String) (shown : Dataset) : RouteResponse
  | errorPage (html : String) : RouteResponse
deriving DecidableEq, Repr

/-- Embedding of `get_preview` of `src/web/routes.py`: renders the first 10
rows of the given dataset, prefixed by the given message. -/
def get_preview (df : Dataset) (sourceId : ℕ) (message : String) : RouteResponse :=
  RouteResponse.preview sourceId message (head10 df)

/-- Embedding of the state effect of `upload_csv_source` (routes.py lines
162-166): the parsed DataFrame enters the df store and an empty pipeline is
initialised for the new source. -/
def uploadState (sid : ℕ) (df : Dataset) (st : AppState) : AppState :=
  { dfStore := setKey sid df st.dfStore,
    pipelineStore := setKey sid [] st.pipelineStore }

/-- Embedding of `open_source` of `src/web/routes.py` over an abstract disk
(a map from file name to parsed dataset).  When the source is not in memory
the handler probes the file named by the literal f-string `f"source_id.csv"`
— which contains no placeholder, so the id is never substituted. -/
def open_source (disk : List (String × Dataset)) (st : AppState) (sid : ℕ) :
    RouteResponse × AppState :=
  match lookupKey sid st.dfStore with
  | some df => (get_preview df sid "", st)
  | none =>
    match lookupKey "source_id.csv" disk with
    | none => (RouteResponse.errorPage "<p>Source file not found.</p>", st)
    | some df =>
        (get_preview df sid "", { st with dfStore := setKey sid df st.dfStore })

/-- Embedding of `clean_source_drop_null_rows` of `src/web/routes.py` (the
in-memory case of `get_df`): the cleaned dataset replaces the working
dataset and a `DropRowsWithNulls` step is recorded, but the preview returned
is rendered from the pre-cleaning dataset `df` (line 331 passes `df`, not
`cleaned_df`, to `get_preview`). -/
def clean_source_drop_null_rows (st : AppState) (sid : ℕ) : RouteResponse × AppState :=
  match lookupKey sid st.dfStore with
  | none => (RouteResponse.errorPage "<p>Failed to read CSV for cleaning:</p>", st)
  | some df =>
    let cleaned := drop_na_rows df
    let removed := df.rows.length - cleaned.rows.length
    let message := "<p>Cleaned by dropping rows with any nulls. Removed " ++
      toString removed ++ " rows (from " ++ toString df.rows.length ++ " to " ++
      toString cleaned.rows.length ++ ").</p>"
    (get_preview df sid message,
     { dfStore := setKey sid cleaned st.dfStore,
       pipelineStore := addStep sid (Step.dropRowsWithNulls none) st.pipelineStore })

/-- Embedding of `clean_source_drop_columns` of `src/web/routes.py` (the
in-memory case): with no columns selected the current preview is re-shown
and nothing is recorded; otherwise the named columns are dropped, the result
becomes the working dataset, a `DropColumns` step is recorded, and the
preview is rendered from the cleaned dataset. -/
def clean_source_drop_columns (st : AppState) (sid : ℕ) (columns : List String) :
    RouteResponse × AppState :=
  match lookupKey sid st.dfStore with
  | none => (RouteResponse.errorPage "<p>Failed to read CSV for drop-columns:</p>", st)
  | some df =>
    if columns.isEmpty then
      (get_preview df sid "<p>No columns selected to drop.</p>", st)
    else
      let cleaned := dropColumnsOp columns df
      (get_preview cleaned sid "<p>Dropped columns.</p>",
       { dfStore := setKey sid cleaned st.dfStore,
         pipelineStore := addStep sid (Step.dropColumns columns) st.pipelineStore })

/-- Embedding of the in-memory effect of `delete_sources_route` of
`src/web/routes.py`: every requested id is popped from the df store; the
pipeline store is not touched by the handler. -/
def delete_sources (ids : List ℕ) (st : AppState) : AppState :=
  { dfStore := st.dfStore.filter (fun p => !(decide (p.1 ∈ ids))),
    pipelineStore := st.pipelineStore }

/-! ### Retail extraction (`src/etl/retail/extract.py`) -/

/-- Embedding of `extract_retail` of `src/etl/retail/extract.py` over an
abstract disk.  The committed source reads exactly two inputs — customers
and transactions — falling back to the fixed default paths, and raises
`FileNotFoundError` naming the missing one; on success it returns the two
parsed datasets. -/
def extract_retail (disk : List (String × Dataset))
    (customers_path transactions_path : Option String) :
    Except String (Dataset × Dataset) :=
  let cp := customers_path.getD "data/input/customers.csv"
  let tp := transactions_path.getD "data/input/transactions.csv"
  match lookupKey cp disk with
  | none => Except.error ("Customers CSV not found at " ++ cp)
  | some customers_df =>
    match lookupKey tp disk with
    | none => Except.error ("Transactions CSV not found at " ++ tp)
    | some transactions_df => Except.ok (customers_df, transactions_df)

/-- `pat` occurs as a substring of `s` (over the underlying character
lists). -/
def containsSub (s pat : String) : Bool :=
  (List.range (s.data.length + 1)).any (fun i => pat.data.isPrefixOf (s.data.drop i))

/-! ### Retail orchestration (`src/etl/retail/run.py`, `load.py`)

Both files are absent from the source tree (only `tests/test_retail_run.py`
and `tests/test_retail_load.py` survive); the loader and the orchestrator
are modelled from the specification (sections 4.6 and 6), with the load
collaborator abstracted into an observable trace of calls. -/

/-- One call to the load collaborator `load_dataframe_to_table`, recorded
with the shape of the dataset it received. -/
structure LoadCall where
  table : String
  mode : String
  rowCount : ℕ
  colCount : ℕ
deriving DecidableEq, Repr

/-- The (row count, column count) shape of a dataset. -/
def shapeOf (d : Dataset) : ℕ × ℕ :=
  (d.rows.length, d.header.length)

/-- Modelled from the spec: `load_retail_to_db` of the absent
`src/etl/retail/load.py` — delegates the four result datasets to the load
collaborator in the fixed order products, stores, sales, enriched, each with
overwrite mode; `batch_size` is only logged and does not alter the calls. -/
def load_retail_to_db (sales_clean products_clean stores_clean enriched : Dataset)
    (batch_size : ℕ) : List LoadCall :=
  [⟨"retail_products_clean", "overwrite", (shapeOf products_clean).1, (shapeOf products_clean).2⟩,
   ⟨"retail_stores_clean", "overwrite", (shapeOf stores_clean).1, (shapeOf stores_clean).2⟩,
   ⟨"retail_sales_clean", "overwrite", (shapeOf sales_clean).1, (shapeOf sales_clean).2⟩,
   ⟨"retail_sales_enriched", "overwrite", (shapeOf enriched).1, (shapeOf enriched).2⟩]

/-- Modelled from the spec: the result record of `run_retail_etl`, carrying
the shape of every raw, clean and enriched dataset. -/
structure RetailETLResult where
  sales_raw_shape : ℕ × ℕ
  products_raw_shape : ℕ × ℕ
  stores_raw_shape : ℕ × ℕ
  sales_clean_shape : ℕ × ℕ
  products_clean_shape : ℕ × ℕ
  stores_clean_shape : ℕ × ℕ
  enriched_shape : ℕ × ℕ
deriving DecidableEq, Repr

/-- Modelled from the spec: `run_retail_etl` of the absent
`src/etl/retail/run.py` — sequences extraction, the three transforms, the
join, and the delegation to the load collaborator, returning the shape
report together with the observable load trace.  The collaborators are
passed explicitly, as the tests monkeypatch them on the run module. -/
def run_retail_etl (extract : Unit → Dataset × Dataset × Dataset)
    (tSales tProducts tStores : Dataset → Dataset)
    (join : Dataset → Dataset → Dataset → Dataset)
    (batch_size : ℕ) : RetailETLResult × List LoadCall :=
  let raw := extract ()
  let sales_raw := raw.1
  let products_raw := raw.2.1
  let stores_raw := raw.2.2
  let sales_clean := tSales sales_raw
  let products_clean := tProducts products_raw
  let stores_clean := tStores stores_raw
  let enriched := join sales_clean products_clean stores_clean
  let calls := load_retail_to_db sales_clean products_clean stores_clean enriched batch_size
  (⟨shapeOf sales_raw, shapeOf products_raw, shapeOf stores_raw,
    shapeOf sales_clean, shapeOf products_clean, shapeOf stores_clean,
    shapeOf enriched⟩, calls)

/-! ### Helper lemmas about the embedding -/

theorem colIdx_eq_none_iff (hdr : List String) (name : String) :
    colIdx hdr name = none ↔ name ∉ hdr := by
  induction hdr with
  | nil => simp [colIdx]
  | cons h hs ih =>
    by_cases he : h = name
    · simp [colIdx, he]
    · simp [colIdx, he, ih, Ne.symm he]

theorem colIdx_lt_length (hdr : List String) (name : String) (i : ℕ)
    (h : colIdx hdr name = some i) : i < hdr.length := by
  induction hdr generalizing i with
  | nil => simp [colIdx] at h
  | cons a hs ih =>
    by_cases he : a = name
    · simp [colIdx, he] at h
      simp [List.length_cons]
      omega
    · simp [colIdx, he] at h
      obtain ⟨j, hj, rfl⟩ := h
      have := ih j hj
      simp [List.length_cons]
      omega

theorem colIdx_get (hdr : List String) (name : String) (i : ℕ)
    (h : colIdx hdr name = some i) : hdr.get? i = some name := by
  induction hdr generalizing i with
  | nil => simp [colIdx] at h
  | cons a hs ih =>
    by_cases he : a = name
    · simp [colIdx, he] at h
      subst h
      simp [he]
    · simp [colIdx, he] at h
      obtain ⟨j, hj, rfl⟩ := h
      simpa using ih j hj

theorem colIdx_append_self (hdr : List String) (t : String) (h : t ∉ hdr) :
    colIdx (hdr ++ [t]) t = some hdr.length := by
  induction hdr with
  | nil => simp [colIdx]
  | cons a hs ih =>
    have hne : a ≠ t := fun he => h (by simp [he])
    have hts : t ∉ hs := fun hm => h (by simp [hm])
    simp [colIdx, hne, ih hts]

theorem colIdx_append_of_ne (hdr : List String) (t name : String) (hne : name ≠ t) :
    colIdx (hdr ++ [t]) name = colIdx hdr name := by
  induction hdr with
  | nil => simp [colIdx, Ne.symm hne]
  | cons a hs ih =>
    by_cases he : a = name
    · simp [colIdx, he]
    · simp [colIdx, he, ih]

theorem dedupBy_sublist {α β : Type} [DecidableEq β] (f : α → β) (xs : List α)
    (seen : List β) : (dedupBy f xs seen).Sublist xs := by
  induction xs generalizing seen with
  | nil => simp [dedupBy]
  | cons x xs ih =>
    by_cases h : f x ∈ seen
    · simp only [dedupBy, if_pos h]
      exact (ih seen).cons x
    · simp only [dedupBy, if_neg h]
      exact (ih (f x :: seen)).cons₂ x

theorem dedupBy_idem {α β : Type} [DecidableEq β] (f : α → β) (xs : List α)
    (seen : List β) :
    dedupBy f (dedupBy f xs seen) seen = dedupBy f xs seen := by
  induction xs generalizing seen with
  | nil => rfl
  | cons x xs ih =>
    by_cases h : f x ∈ seen
    · simp only [dedupBy, if_pos h]
      exact ih seen
    · simp only [dedupBy, if_neg h]
      rw [ih (f x :: seen)]

theorem lookupKey_addStep_self (sid : ℕ) (s : Step) (ps : List (ℕ × List Step)) :
    lookupKey sid (addStep sid s ps) = some ((lookupKey sid ps).getD [] ++ [s]) := by
  unfold addStep
  cases h : lookupKey sid ps with
  | none => simp [h, lookupKey_setKey_self]
  | some S => simp [h, lookupKey_setKey_self]

theorem lookupKey_addStep_ne (sid k : ℕ) (s : Step) (ps : List (ℕ × List Step))
    (hne : k ≠ sid) :
    lookupKey k (addStep sid s ps) = lookupKey k ps := by
  unfold addStep
  cases h : lookupKey sid ps with
  | none => simp [lookupKey_setKey_ne _ _ _ _ hne]
  | some S => simp [lookupKey_setKey_ne _ _ _ _ hne]

/-! ### C6 — idempotence of duplicate removal -/

/-- C6: `remove_duplicates` is idempotent — for every dataset and every
subset parameter (including none), applying it twice equals applying it
once; moreover the kept rows are a sublist of the original rows (first
occurrences in original order). -/
theorem remove_duplicates_idempotent (d : Dataset) (subset : Option (List String)) :
    remove_duplicates (remove_duplicates d subset) subset = remove_duplicates d subset ∧
    (remove_duplicates d subset).rows.Sublist d.rows := by
  constructor
  · show remove_duplicates ⟨d.header, dedupBy (rowKey d.header subset) d.rows []⟩ subset = _
    unfold remove_duplicates
    simp only
    rw [dedupBy_idem]
  · exact dedupBy_sublist _ _ _

/-! ### C2 — retail extraction inputs -/

/-- The disk contents of the failing test `test_extract_retail_missing_sales_raises`
in `tests/test_retail_extract.py`: the products and stores files exist, the
sales file does not. -/
def c2Disk : List (String × Dataset) :=
  [("product_hierarchy.csv", ⟨["product_id", "name"], [[Value.num 1, Value.str "P"]]⟩),
   ("store_cities.csv", ⟨["store_id", "city"], [[Value.num 1, Value.str "X"]]⟩)]

/-- C2: evaluation of the committed `extract_retail` of
`src/etl/retail/extract.py` at the scenario of its own test
`test_extract_retail_missing_sales_raises`.  The committed code extracts two
datasets (customers, transactions), not three (sales, products, stores): on
a disk holding the products and stores files it fails looking for the
customers CSV, with a message that names "Customers" and never contains the
"sales.csv not found" text the test asserts. -/
theorem extract_retail_two_inputs_divergence :
    extract_retail c2Disk none none =
      Except.error "Customers CSV not found at data/input/customers.csv" ∧
    containsSub "Customers CSV not found at data/input/customers.csv"
      "sales.csv not found" = false ∧
    containsSub "Customers CSV not found at data/input/customers.csv"
      "Customers CSV not found" = true := by
  refine ⟨rfl, by decide, by decide⟩

/-! ### C9 — `open_source` probes a fixed literal file name -/

/-- C9: when a source's dataset is not in the in-memory store, `open_source`
checks for the fixed literal file name `source_id.csv` (the id is not
substituted), so it answers "Source file not found." (leaving the state
unchanged) whenever that fixed-name file is absent — even when the source's
own saved file `source_<id>.csv` exists on disk. -/
theorem open_source_probes_literal_filename (disk : List (String × Dataset))
    (st : AppState) (sid : ℕ) (d : Dataset)
    (hmem : lookupKey sid st.dfStore = none)
    (hfixed : lookupKey "source_id.csv" disk = none)
    (hsaved : lookupKey ("source_" ++ toString sid ++ ".csv") disk = some d) :
    open_source disk st sid =
      (RouteResponse.errorPage "<p>Source file not found.</p>", st) := by
  simp [open_source, hmem, hfixed]

/-- Witness for C9: a concrete disk holding exactly `source_7.csv`. -/
theorem open_source_probes_literal_filename_witness :
    open_source [("source_7.csv", ⟨["a"], [[Value.str "x"]]⟩)] ⟨[], []⟩ 7 =
      (RouteResponse.errorPage "<p>Source file not found.</p>", (⟨[], []⟩ : AppState)) :=
  open_source_probes_literal_filename _ _ 7 ⟨["a"], [[Value.str "x"]]⟩
    (by decide) (by decide) (by decide)

/-! ### C10 — stale preview after drop-null-rows cleaning -/

/-- C10: for a source with an in-memory dataset, the drop-null-rows cleaning
stores the null-free cleaned dataset as the new working dataset and records
the corresponding step, but the preview it returns is rendered from the
pre-cleaning input dataset; the final conjunct exhibits a dataset on which
the shown preview differs from the stored working state. -/
theorem clean_drop_null_rows_stale_preview (st : AppState) (sid : ℕ) (df : Dataset)
    (hdf : lookupKey sid st.dfStore = some df) :
    lookupKey sid (clean_source_drop_null_rows st sid).2.dfStore =
      some (drop_na_rows df) ∧
    lookupKey sid (clean_source_drop_null_rows st sid).2.pipelineStore =
      some ((lookupKey sid st.pipelineStore).getD [] ++ [Step.dropRowsWithNulls none]) ∧
    (∃ msg, (clean_source_drop_null_rows st sid).1 =
      RouteResponse.preview sid msg (head10 df)) ∧
    head10 (⟨["a"], [[Value.null]]⟩ : Dataset) ≠
      head10 (drop_na_rows ⟨["a"], [[Value.null]]⟩) := by
  refine ⟨?_, ?_, ?_, by decide⟩
  · simp [clean_source_drop_null_rows, hdf, lookupKey_setKey_self]
  · simp [clean_source_drop_null_rows, hdf, lookupKey_addStep_self]
  · exact ⟨"<p>Cleaned by dropping rows with any nulls. Removed " ++
      toString (df.rows.length - (drop_na_rows df).rows.length) ++ " rows (from " ++
      toString df.rows.length ++ " to " ++ toString (drop_na_rows df).rows.length ++
      ").</p>", by simp [clean_source_drop_null_rows, hdf, get_preview]⟩

/-- The input dataset of the C10 witness: one column, one all-null row. -/
def c10df : Dataset := ⟨["a"], [[Value.null]]⟩

/-- Witness for C10 at a concrete one-source state. -/
theorem clean_drop_null_rows_stale_preview_witness :
    lookupKey 1 (clean_source_drop_null_rows ⟨[(1, c10df)], []⟩ 1).2.dfStore =
      some (drop_na_rows c10df) ∧
    (∃ msg, (clean_source_drop_null_rows ⟨[(1, c10df)], []⟩ 1).1 =
      RouteResponse.preview 1 msg (head10 c10df)) :=
  ⟨(clean_drop_null_rows_stale_preview ⟨[(1, c10df)], []⟩ 1 c10df (by decide)).1,
   (clean_drop_null_rows_stale_preview ⟨[(1, c10df)], []⟩ 1 c10df (by decide)).2.2.1⟩

/-! ### C8 — what deletion destroys -/

/-- A two-source state used in the C8 counterexample and witness. -/
def c8State : AppState :=
  ⟨[(1, ⟨["a"], [[Value.str "x"]]⟩), (2, ⟨["b"], [[Value.str "y"]]⟩)],
   [(1, [Step.dropRowsWithNulls none]), (2, [])]⟩

/-- Counterexample to C8 as stated: deleting source 1 removes its working
dataset from the df store, but its PipelineRecord survives in the pipeline
store — `delete_sources_route` never touches `pipeline_store`. -/
theorem delete_sources_keeps_pipeline_record :
    lookupKey 1 (delete_sources [1] c8State).dfStore = none ∧
    lookupKey 1 (delete_sources [1] c8State).pipelineStore =
      some [Step.dropRowsWithNulls none] := by
  exact ⟨by decide, by decide⟩

/-- C8 (amended): when a source identity is deleted its working dataset is
removed from the in-memory df store, but its PipelineRecord is NOT removed —
the pipeline store is left entirely untouched; df-store entries of other
identities are unchanged; and an individual edit operation destroys neither
the working dataset (it is replaced by the edited dataset) nor the
PipelineRecord (the step list stays present, extended by one step). -/
theorem delete_sources_frame (st : AppState) (ids : List ℕ) (sid : ℕ) :
    (sid ∈ ids → lookupKey sid (delete_sources ids st).dfStore = none) ∧
    (delete_sources ids st).pipelineStore = st.pipelineStore ∧
    (sid ∉ ids → lookupKey sid (delete_sources ids st).dfStore =
      lookupKey sid st.dfStore) ∧
    (∀ df, lookupKey sid st.dfStore = some df →
      lookupKey sid (clean_source_drop_null_rows st sid).2.dfStore =
        some (drop_na_rows df) ∧
      lookupKey sid (clean_source_drop_null_rows st sid).2.pipelineStore ≠ none) := by
  refine ⟨fun h => lookupKey_filter_mem _ _ _ h, rfl,
    fun h => lookupKey_filter_not_mem _ _ _ h, fun df hdf => ⟨?_, ?_⟩⟩
  · simp [clean_source_drop_null_rows, hdf, lookupKey_setKey_self]
  · simp [clean_source_drop_null_rows, hdf, lookupKey_addStep_self]

/-- Witness for C8 (amended) at the concrete two-source state. -/
theorem delete_sources_frame_witness :
    lookupKey 1 (delete_sources [1] c8State).dfStore = none ∧
    lookupKey 2 (delete_sources [1] c8State).dfStore = lookupKey 2 c8State.dfStore ∧
    lookupKey 2 (clean_source_drop_null_rows c8State 2).2.pipelineStore ≠ none :=
  ⟨(delete_sources_frame c8State [1] 1).1 (by decide),
   (delete_sources_frame c8State [1] 2).2.2.1 (by decide),
   ((delete_sources_frame c8State [1] 2).2.2.2 ⟨["b"], [[Value.str "y"]]⟩ (by decide)).2⟩

/-! ### C7 — orchestration order and shape report -/

/-- C7: every run of `run_retail_etl` produces exactly 4 load-collaborator
calls, in the fixed order products, stores, sales, enriched, onto the four
`retail_*` tables, each with overwrite mode; and the shapes carried in the
returned result record equal the shapes of the datasets passed to each
stage. -/
theorem run_retail_etl_orchestration (extract : Unit → Dataset × Dataset × Dataset)
    (tSales tProducts tStores : Dataset → Dataset)
    (join : Dataset → Dataset → Dataset → Dataset) (batch_size : ℕ) :
    (run_retail_etl extract tSales tProducts tStores join batch_size).2.length = 4 ∧
    (run_retail_etl extract tSales tProducts tStores join batch_size).2.map LoadCall.table =
      ["retail_products_clean", "retail_stores_clean",
       "retail_sales_clean", "retail_sales_enriched"] ∧
    (∀ c ∈ (run_retail_etl extract tSales tProducts tStores join batch_size).2,
      c.mode = "overwrite") ∧
    (run_retail_etl extract tSales tProducts tStores join batch_size).2.map
        (fun c => (c.rowCount, c.colCount)) =
      [shapeOf (tProducts (extract ()).2.1), shapeOf (tStores (extract ()).2.2),
       shapeOf (tSales (extract ()).1),
       shapeOf (join (tSales (extract ()).1) (tProducts (extract ()).2.1)
         (tStores (extract ()).2.2))] ∧
    (run_retail_etl extract tSales tProducts tStores join batch_size).1 =
      ⟨shapeOf (extract ()).1, shapeOf (extract ()).2.1, shapeOf (extract ()).2.2,
       shapeOf (tSales (extract ()).1), shapeOf (tProducts (extract ()).2.1),
       shapeOf (tStores (extract ()).2.2),
       shapeOf (join (tSales (extract ()).1) (tProducts (extract ()).2.1)
         (tStores (extract ()).2.2))⟩ := by
  refine ⟨rfl, rfl, ?_, rfl, rfl⟩
  intro c hc
  simp [run_retail_etl, load_retail_to_db] at hc
  rcases hc with h | h | h | h <;> simp [h]

/-! ### C5 — key standardization -/

theorem zip_self_map {α β : Type} (l : List α) (g : α → β) :
    l.zip (l.map g) = l.map (fun a => (a, g a)) := by
  induction l with
  | nil => rfl
  | cons a l ih => simp [ih]

theorem find?_first {α : Type} (p : α → Bool) (pre : List α) (c : α) (post : List α)
    (hpre : ∀ x ∈ pre, p x = false) (hc : p c = true) :
    (pre ++ c :: post).find? p = some c := by
  induction pre with
  | nil => simp [List.find?_cons_of_pos _ hc]
  | cons a pre ih =>
    have ha : p a = false := hpre a (by simp)
    rw [List.cons_append, List.find?_cons_of_neg _ (by simp [ha])]
    exact ih (fun x hx => hpre x (by simp [hx]))

theorem setColumn_append (d : Dataset) (t : String) (g : List Value → Value)
    (hWF : d.WF) (ht : t ∉ d.header) :
    (setColumn d t (d.rows.map g)).header = d.header ++ [t] ∧
    (setColumn d t (d.rows.map g)).rows.length = d.rows.length ∧
    colByName (setColumn d t (d.rows.map g)) t = d.rows.map g ∧
    (∀ name, name ≠ t →
      colByName (setColumn d t (d.rows.map g)) name = colByName d name) := by
  have hidx : colIdx d.header t = none := (colIdx_eq_none_iff _ _).mpr ht
  have hrows : (setColumn d t (d.rows.map g)).rows =
      d.rows.map (fun r => r ++ [g r]) := by
    simp [setColumn, hidx, zip_self_map, List.map_map]
  have hhdr : (setColumn d t (d.rows.map g)).header = d.header ++ [t] := by
    simp [setColumn, hidx]
  refine ⟨hhdr, by simp [hrows], ?_, ?_⟩
  · unfold colByName
    rw [hhdr, hrows, List.map_map]
    refine List.map_congr_left (fun r hr => ?_)
    have hlen : r.length = d.header.length := hWF r hr
    simp only [Function.comp]
    rw [getCell, colIdx_append_self _ _ ht]
    simp only
    rw [List.get?_append_right (by omega)]
    simp [hlen]
  · intro name hne
    unfold colByName
    rw [hhdr, hrows, List.map_map]
    refine List.map_congr_left (fun r hr => ?_)
    have hlen : r.length = d.header.length := hWF r hr
    simp only [Function.comp]
    rw [getCell, getCell, colIdx_append_of_ne _ _ _ hne]
    cases hj : colIdx d.header name with
    | none => simp
    | some j =>
      have hjlt : j < d.header.length := colIdx_lt_length _ _ _ hj
      simp only
      rw [List.get?_append (by omega)]

theorem setColumn_overwrite (d : Dataset) (t : String) (g : List Value → Value)
    (hWF : d.WF) (i : ℕ) (hidx : colIdx d.header t = some i) :
    (setColumn d t (d.rows.map g)).header = d.header ∧
    (setColumn d t (d.rows.map g)).rows.length = d.rows.length ∧
    colByName (setColumn d t (d.rows.map g)) t = d.rows.map g ∧
    (∀ name, name ≠ t →
      colByName (setColumn d t (d.rows.map g)) name = colByName d name) := by
  have hilt : i < d.header.length := colIdx_lt_length _ _ _ hidx
  have hrows : (setColumn d t (d.rows.map g)).rows =
      d.rows.map (fun r => r.set i (g r)) := by
    simp [setColumn, hidx, zip_self_map, List.map_map]
  have hhdr : (setColumn d t (d.rows.map g)).header = d.header := by
    simp [setColumn, hidx]
  refine ⟨hhdr, by simp [hrows], ?_, ?_⟩
  · unfold colByName
    rw [hhdr, hrows, List.map_map]
    refine List.map_congr_left (fun r hr => ?_)
    have hlen : r.length = d.header.length := hWF r hr
    simp only [Function.comp]
    rw [getCell, hidx]
    simp [List.get?_eq_getElem?, List.getElem?_set_self, hlen ▸ hilt]
  · intro name hne
    unfold colByName
    rw [hhdr, hrows, List.map_map]
    refine List.map_congr_left (fun r hr => ?_)
    simp only [Function.comp]
    rw [getCell, getCell]
    cases hj : colIdx d.header name with
    | none => simp
    | some j =>
      have hji : j ≠ i := by
        intro he
        subst he
        have h1 := colIdx_get _ _ _ hidx
        have h2 := colIdx_get _ _ _ hj
        rw [h1] at h2
        exact hne (by injection h2 with h3; exact h3.symm) |>.elim
      simp only
      rw [List.get?_eq_getElem?, List.get?_eq_getElem?, List.getElem?_set_ne (Ne.symm hji)]

/-- The per-row coercion performed by `standardize_key` on the chosen source
column. -/
def keyCoerce (hdr : List String) (c : String) : List Value → Value :=
  fun r => coerceTrim ((getCell hdr r c).getD Value.null)

/-- C5: `standardize_key` picks the first candidate name present among the
columns; it creates (appending at the end) or overwrites the target column
with the source column's values coerced to trimmed text, leaves every other
column — the source column included — unchanged, and keeps the row count;
with no candidate present the dataset is returned unchanged. -/
theorem standardize_key_spec :
    (∀ (d : Dataset) (candidates : List String) (target : String),
      (∀ x ∈ candidates, x ∉ d.header) →
      standardize_key d candidates target = d) ∧
    (∀ (d : Dataset) (pre post : List String) (c target : String),
      d.WF → (∀ x ∈ pre, x ∉ d.header) → c ∈ d.header →
      ((standardize_key d (pre ++ c :: post) target).rows.length = d.rows.length ∧
       colByName (standardize_key d (pre ++ c :: post) target) target =
         (colByName d c).map coerceTrim ∧
       (∀ name, name ≠ target →
         colByName (standardize_key d (pre ++ c :: post) target) name =
           colByName d name) ∧
       (target ∉ d.header →
         (standardize_key d (pre ++ c :: post) target).header =
           d.header ++ [target]) ∧
       (target ∈ d.header →
         (standardize_key d (pre ++ c :: post) target).header = d.header))) := by
  constructor
  · intro d candidates target h
    have hnone : candidates.find? (fun x => d.header.contains x) = none := by
      rw [List.find?_eq_none]
      intro x hx
      simp [h x hx]
    unfold standardize_key
    rw [hnone]
  · intro d pre post c target hWF hpre hc
    have hfind : (pre ++ c :: post).find? (fun x => d.header.contains x) = some c :=
      find?_first _ _ _ _ (fun x hx => by simp [hpre x hx]) (by simp [hc])
    have hmap : (colByName d c).map coerceTrim = d.rows.map (keyCoerce d.header c) := by
      simp [colByName, keyCoerce, List.map_map]
    have hsk : standardize_key d (pre ++ c :: post) target =
        setColumn d target (d.rows.map (keyCoerce d.header c)) := by
      unfold standardize_key
      rw [hfind]
      exact congrArg (setColumn d target) hmap
    by_cases hmem : target ∈ d.header
    · cases hidx : colIdx d.header target with
      | none => exact absurd hmem ((colIdx_eq_none_iff _ _).mp hidx)
      | some i =>
        obtain ⟨h1, h2, h3, h4⟩ :=
          setColumn_overwrite d target (keyCoerce d.header c) hWF i hidx
        exact ⟨by rw [hsk]; exact h2,
          by rw [hsk, hmap]; exact h3,
          fun name hne => by rw [hsk]; exact h4 name hne,
          fun h => absurd hmem h,
          fun _ => by rw [hsk]; exact h1⟩
    · obtain ⟨h1, h2, h3, h4⟩ := setColumn_append d target (keyCoerce d.header c) hWF hmem
      exact ⟨by rw [hsk]; exact h2,
        by rw [hsk, hmap]; exact h3,
        fun name hne => by rw [hsk]; exact h4 name hne,
        fun _ => by rw [hsk]; exact h1,
        fun h => absurd h hmem⟩

/-- The dataset of the `test_standardize_key_creates_target_column` test. -/
def c5df : Dataset :=
  ⟨["ProductID", "other"],
   [[Value.num 1, Value.str "x"], [Value.num 2, Value.str "y"]]⟩

/-- A dataset with no candidate column, as in
`test_standardize_key_no_candidate_keeps_dataframe`. -/
def c5noCand : Dataset := ⟨["col"], [[Value.num 1], [Value.num 2], [Value.num 3]]⟩

/-- Witness for C5: the concrete scenarios of the two standardize-key tests. -/
theorem standardize_key_spec_witness :
    colByName (standardize_key c5df ["product_id", "ProductID"] "product_id")
      "product_id" = (colByName c5df "ProductID").map coerceTrim ∧
    (colByName c5df "ProductID").map coerceTrim = [Value.str "1", Value.str "2"] ∧
    (standardize_key c5df ["product_id", "ProductID"] "product_id").header =
      ["ProductID", "other"] ++ ["product_id"] ∧
    colByName (standardize_key c5df ["product_id", "ProductID"] "product_id")
      "other" = colByName c5df "other" ∧
    standardize_key c5noCand ["product_id"] "product_id" = c5noCand :=
  ⟨(standardize_key_spec.2 c5df ["product_id"] [] "ProductID" "product_id"
      (by decide) (by decide) (by decide)).2.1,
   by decide,
   (standardize_key_spec.2 c5df ["product_id"] [] "ProductID" "product_id"
      (by decide) (by decide) (by decide)).2.2.2.1 (by decide),
   (standardize_key_spec.2 c5df ["product_id"] [] "ProductID" "product_id"
      (by decide) (by decide) (by decide)).2.2.1 "other" (by decide),
   standardize_key_spec.1 c5noCand ["product_id"] "product_id" (by decide)⟩

/-! ### C1 — replay equivalence for incremental edits -/

/-- An interactive cleaning edit a user can request on one source through
the web layer. -/
inductive Edit where
  | dropNullRows : Edit
  | dropCols : List String → Edit
deriving DecidableEq, Repr

/-- The state effect of one edit request, per `src/web/routes.py`. -/
def applyEditState (sid : ℕ) (st : AppState) : Edit → AppState
  | Edit.dropNullRows => (clean_source_drop_null_rows st sid).2
  | Edit.dropCols cols => (clean_source_drop_columns st sid cols).2

/-- The step recorded for an edit (none when the edit is a no-op: dropping
an empty column selection records nothing). -/
def stepOfEdit : Edit → Option Step
  | Edit.dropNullRows => some (Step.dropRowsWithNulls none)
  | Edit.dropCols cols => if cols.isEmpty then none else some (Step.dropColumns cols)

theorem apply_pipeline_append_one (R : Dataset) (S : List Step) (s : Step) :
    apply_pipeline_to_df R (S ++ [s]) = applyStep (apply_pipeline_to_df R S) s := by
  unfold apply_pipeline_to_df
  rw [List.foldl_append]
  rfl

theorem replay_invariant (R : Dataset) (sid : ℕ) (es : List Edit) (st : AppState)
    (W : Dataset) (S : List Step)
    (hdf : lookupKey sid st.dfStore = some W)
    (hpl : lookupKey sid st.pipelineStore = some S)
    (happ : apply_pipeline_to_df R S = W) :
    ∃ W',
      lookupKey sid (es.foldl (applyEditState sid) st).dfStore = some W' ∧
      lookupKey sid (es.foldl (applyEditState sid) st).pipelineStore =
        some (S ++ es.filterMap stepOfEdit) ∧
      apply_pipeline_to_df R (S ++ es.filterMap stepOfEdit) = W' := by
  induction es generalizing st W S with
  | nil => exact ⟨W, by simpa, by simpa, by simpa⟩
  | cons e es ih =>
    cases e with
    | dropNullRows =>
      have hdf' : lookupKey sid (applyEditState sid st Edit.dropNullRows).dfStore =
          some (drop_na_rows W) := by
        simp [applyEditState, clean_source_drop_null_rows, hdf, lookupKey_setKey_self]
      have hpl' : lookupKey sid (applyEditState sid st Edit.dropNullRows).pipelineStore =
          some (S ++ [Step.dropRowsWithNulls none]) := by
        simp [applyEditState, clean_source_drop_null_rows, hdf,
          lookupKey_addStep_self, hpl]
      have happ' : apply_pipeline_to_df R (S ++ [Step.dropRowsWithNulls none]) =
          drop_na_rows W := by
        rw [apply_pipeline_append_one, happ]
        rfl
      obtain ⟨W', h1, h2, h3⟩ := ih _ _ _ hdf' hpl' happ'
      refine ⟨W', by simpa using h1, ?_, ?_⟩
      · rw [List.foldl_cons, h2]
        simp [stepOfEdit, List.filterMap_cons, List.append_assoc]
      · simpa [stepOfEdit, List.filterMap_cons, List.append_assoc] using h3
    | dropCols cols =>
      by_cases hemp : cols.isEmpty
      · have hst : applyEditState sid st (Edit.dropCols cols) = st := by
          simp [applyEditState, clean_source_drop_columns, hdf, hemp]
        obtain ⟨W', h1, h2, h3⟩ := ih st W S hdf hpl happ
        refine ⟨W', ?_, ?_, ?_⟩
        · rw [List.foldl_cons, hst]
          exact h1
        · rw [List.foldl_cons, hst, h2]
          simp [stepOfEdit, List.filterMap_cons, hemp]
        · simpa [stepOfEdit, List.filterMap_cons, hemp] using h3
      · have hdf' : lookupKey sid (applyEditState sid st (Edit.dropCols cols)).dfStore =
            some (dropColumnsOp cols W) := by
          simp [applyEditState, clean_source_drop_columns, hdf, hemp,
            lookupKey_setKey_self]
        have hpl' : lookupKey sid
            (applyEditState sid st (Edit.dropCols cols)).pipelineStore =
            some (S ++ [Step.dropColumns cols]) := by
          simp [applyEditState, clean_source_drop_columns, hdf, hemp,
            lookupKey_addStep_self, hpl]
        have happ' : apply_pipeline_to_df R (S ++ [Step.dropColumns cols]) =
            dropColumnsOp cols W := by
          rw [apply_pipeline_append_one, happ]
          rfl
        obtain ⟨W', h1, h2, h3⟩ := ih _ _ _ hdf' hpl' happ'
        refine ⟨W', by simpa using h1, ?_, ?_⟩
        · rw [List.foldl_cons, h2]
          simp [stepOfEdit, List.filterMap_cons, hemp, List.append_assoc]
        · simpa [stepOfEdit, List.filterMap_cons, hemp, List.append_assoc] using h3

/-- C1: for every source identity, raw dataset `R` and sequence of recorded
edit requests applied incrementally after the upload (each edit both
transforming the working dataset and appending its step to the source's
pipeline record), replaying the recorded pipeline from the start against
`R` via `apply_pipeline_to_df` yields a dataset equal (same columns, same
values, same row count) to the working dataset: the recorded steps are
exactly the edits' steps in call order — never reordered or deduplicated —
and the left fold of `apply_pipeline_to_df` applies them in that order. -/
theorem replay_matches_incremental_edits (R : Dataset) (sid : ℕ) (st0 : AppState)
    (es : List Edit) :
    ∃ W,
      lookupKey sid ((es.foldl (applyEditState sid) (uploadState sid R st0))).dfStore =
        some W ∧
      lookupKey sid
          ((es.foldl (applyEditState sid) (uploadState sid R st0))).pipelineStore =
        some (es.filterMap stepOfEdit) ∧
      apply_pipeline_to_df R (es.filterMap stepOfEdit) = W := by
  have h := replay_invariant R sid es (uploadState sid R st0) R []
    (by simp [uploadState, lookupKey_setKey_self])
    (by simp [uploadState, lookupKey_setKey_self])
    rfl
  simpa using h

/-! ### C3 — left-join enrichment -/

theorem leftJoinOn_rows_ext (key : String) (left right : Dataset) :
    ∃ f : List Value → List Value,
      (leftJoinOn key left right).rows = left.rows.map (fun r => r ++ f r) := by
  by_cases h : (left.header.contains key && right.header.contains key) = true
  · refine ⟨fun r =>
      match right.rows.find? (fun rr =>
          getCell right.header rr key == getCell left.header r key) with
      | some rr => extractNonKey right.header key rr
      | none => (nonKeyCols right.header key).map (fun _ => Value.null), ?_⟩
    simp only [leftJoinOn, h, if_true]
    refine List.map_congr_left (fun r hr => ?_)
    cases hfind : right.rows.find? (fun rr =>
        getCell right.header rr key == getCell left.header r key) <;> simp [hfind]
  · refine ⟨fun _ => [], ?_⟩
    simp only [leftJoinOn, h, if_false]
    simp

theorem leftJoinOn_header_ext (key : String) (left right : Dataset) :
    ∃ extra, (leftJoinOn key left right).header = left.header ++ extra := by
  by_cases h : (left.header.contains key && right.header.contains key) = true
  · refine ⟨nonKeyCols right.header key, ?_⟩
    unfold leftJoinOn
    rw [if_pos h]
  · refine ⟨[], ?_⟩
    unfold leftJoinOn
    rw [if_neg h, List.append_nil]

theorem leftJoinOn_rows_length (key : String) (left right : Dataset) :
    (leftJoinOn key left right).rows.length = left.rows.length := by
  obtain ⟨f, hf⟩ := leftJoinOn_rows_ext key left right
  rw [hf, List.length_map]

theorem leftJoinOn_skip (key : String) (left right : Dataset)
    (h : (left.header.contains key && right.header.contains key) = false) :
    leftJoinOn key left right = left := by
  simp only [leftJoinOn, h]
  rfl

/-- C3 (amended): `join_sales_products_stores` preserves every row of sales
exactly once — the result has the same row count, and truncating each
result row to the sales columns recovers the sales rows verbatim; the
header extends the sales header; a join whose key column is absent on
either side is skipped and appends NO columns (a skipped products join
leaves exactly the stores join, and with neither key present on both sides
the result equals sales unchanged); when a join is performed, a sales row
without a match receives null cells for all appended columns. -/
theorem join_sales_left_preserving (sales products stores : Dataset) :
    (join_sales_products_stores sales products stores).rows.length =
      sales.rows.length ∧
    (sales.WF →
      (join_sales_products_stores sales products stores).rows.map
        (fun r => r.take sales.header.length) = sales.rows) ∧
    (∃ extra, (join_sales_products_stores sales products stores).header =
      sales.header ++ extra) ∧
    (products.header.contains "product_id" = false →
      join_sales_products_stores sales products stores =
        leftJoinOn "store_id" sales stores) ∧
    ((sales.header.contains "product_id" = false ∨
        products.header.contains "product_id" = false) →
      (sales.header.contains "store_id" = false ∨
        stores.header.contains "store_id" = false) →
      join_sales_products_stores sales products stores = sales) ∧
    (∀ (key : String) (l r : Dataset) (row : List Value),
      l.header.contains key = true → r.header.contains key = true →
      row ∈ l.rows →
      r.rows.find? (fun rr =>
        getCell r.header rr key == getCell l.header row key) = none →
      (row ++ (nonKeyCols r.header key).map (fun _ => Value.null)) ∈
        (leftJoinOn key l r).rows) := by
  obtain ⟨f1, h1⟩ := leftJoinOn_rows_ext "product_id" sales products
  obtain ⟨f2, h2⟩ :=
    leftJoinOn_rows_ext "store_id" (leftJoinOn "product_id" sales products) stores
  refine ⟨?_, ?_, ?_, ?_, ?_, ?_⟩
  · unfold join_sales_products_stores
    rw [leftJoinOn_rows_length, leftJoinOn_rows_length]
  · intro hWF
    unfold join_sales_products_stores
    rw [h2, h1, List.map_map, List.map_map]
    have : ∀ r ∈ sales.rows,
        (((r ++ f1 r) ++ f2 (r ++ f1 r)).take sales.header.length) = r := by
      intro r hr
      rw [List.append_assoc, ← hWF r hr]
      exact List.take_left r (f1 r ++ f2 (r ++ f1 r))
    calc sales.rows.map _ = sales.rows.map id := List.map_congr_left (fun r hr => this r hr)
      _ = sales.rows := List.map_id sales.rows
  · obtain ⟨e1, he1⟩ := leftJoinOn_header_ext "product_id" sales products
    obtain ⟨e2, he2⟩ :=
      leftJoinOn_header_ext "store_id" (leftJoinOn "product_id" sales products) stores
    exact ⟨e1 ++ e2, by rw [join_sales_products_stores, he2, he1, List.append_assoc]⟩
  · intro hnp
    have hnp' : "product_id" ∉ products.header := by simpa using hnp
    unfold join_sales_products_stores
    rw [leftJoinOn_skip "product_id" sales products (by simp [hnp'])]
  · intro hp hs
    have hp' : "product_id" ∉ sales.header ∨ "product_id" ∉ products.header := by
      rcases hp with h | h
      · exact Or.inl (by simpa using h)
      · exact Or.inr (by simpa using h)
    have hs' : "store_id" ∉ sales.header ∨ "store_id" ∉ stores.header := by
      rcases hs with h | h
      · exact Or.inl (by simpa using h)
      · exact Or.inr (by simpa using h)
    unfold join_sales_products_stores
    rw [leftJoinOn_skip "product_id" sales products ?hp,
      leftJoinOn_skip "store_id" sales stores ?hs]
    case hp => rcases hp' with h | h <;> simp [h]
    case hs => rcases hs' with h | h <;> simp [h]
  · intro key l r row hkl hkr hrow hnomatch
    have hcond : (l.header.contains key && r.header.contains key) = true := by
      rw [hkl, hkr]
      rfl
    simp only [leftJoinOn, hcond, if_true]
    exact List.mem_map.mpr ⟨row, hrow, by rw [hnomatch]⟩

/-- The sales dataset of `test_join_sales_products_stores_missing_keys_no_crash`. -/
def c3sales : Dataset := ⟨["amount"], [[Value.num 10]]⟩

/-- The products dataset of the missing-keys join test: no `product_id`. -/
def c3products : Dataset := ⟨["something_else"], [[Value.num 1]]⟩

/-- The stores dataset of the missing-keys join test: no `store_id`. -/
def c3stores : Dataset := ⟨["another_col"], [[Value.num 2]]⟩

/-- Counterexample to C3 as stated: with both join keys absent, the claim
asserts both that the products/stores columns are appended (null-filled,
because the joins were skipped) and that the result equals sales unchanged.
The second holds and the first fails: the result is exactly `sales` and
contains neither `something_else` nor `another_col` — a skipped join
appends no columns at all (this is what the repository's own test
`test_join_sales_products_stores_missing_keys_no_crash` asserts). -/
theorem join_skipped_appends_no_columns :
    join_sales_products_stores c3sales c3products c3stores = c3sales ∧
    "something_else" ∉ (join_sales_products_stores c3sales c3products c3stores).header ∧
    "another_col" ∉ (join_sales_products_stores c3sales c3products c3stores).header := by
  refine ⟨by rfl, by decide, by decide⟩

/-- The sales dataset of `test_join_sales_products_stores_happy_path`. -/
def c3hpSales : Dataset :=
  ⟨["product_id", "store_id", "amount"],
   [[Value.num 101, Value.num 1, Value.num 10],
    [Value.num 102, Value.num 2, Value.num 20]]⟩

/-- The products dataset of the happy-path join test (one matching row). -/
def c3hpProducts : Dataset :=
  ⟨["product_id", "category"], [[Value.num 101, Value.str "A"]]⟩

/-- The stores dataset of the happy-path join test (one matching row). -/
def c3hpStores : Dataset :=
  ⟨["store_id", "city"], [[Value.num 1, Value.str "NYC"]]⟩

/-- Witness for C3 (amended) at the repository's own join test data: both
sales rows survive in order, the matched row carries category "A" and city
"NYC", the unmatched row carries nulls, a skipped products join leaves
exactly the stores join, and an unmatched row of a performed join receives
nulls for all appended columns. -/
theorem join_sales_left_preserving_witness :
    (join_sales_products_stores c3hpSales c3hpProducts c3hpStores).rows.map
        (fun r => r.take c3hpSales.header.length) = c3hpSales.rows ∧
    join_sales_products_stores c3hpSales c3hpProducts c3hpStores =
      ⟨["product_id", "store_id", "amount", "category", "city"],
       [[Value.num 101, Value.num 1, Value.num 10, Value.str "A", Value.str "NYC"],
        [Value.num 102, Value.num 2, Value.num 20, Value.null, Value.null]]⟩ ∧
    join_sales_products_stores c3hpSales c3products c3hpStores =
      leftJoinOn "store_id" c3hpSales c3hpStores ∧
    ([Value.num 102, Value.num 2, Value.num 20] ++
        (nonKeyCols c3hpProducts.header "product_id").map (fun _ => Value.null)) ∈
      (leftJoinOn "product_id" c3hpSales c3hpProducts).rows :=
  ⟨(join_sales_left_preserving c3hpSales c3hpProducts c3hpStores).2.1 (by decide),
   by decide,
   (join_sales_left_preserving c3hpSales c3products c3hpStores).2.2.2.1 (by decide),
   (join_sales_left_preserving c3hpSales c3hpProducts c3hpStores).2.2.2.2.2
     "product_id" c3hpSales c3hpProducts [Value.num 102, Value.num 2, Value.num 20]
     (by decide) (by decide) (by decide) (by decide)⟩

/-! ### C4 — IQR outlier removal -/

theorem any_map_comp {α β : Type} (l : List α) (f : α → β) (p : β → Bool) :
    (l.map f).any p = l.any (fun a => p (f a)) := by
  induction l with
  | nil => rfl
  | cons a l ih => simp [List.any_cons, ih]

theorem not_any_eq_decide_ball {α : Type} (l : List α) (p : α → Bool) :
    (!(l.any p)) = decide (∀ x ∈ l, p x = false) := by
  cases hany : l.any p with
  | false =>
    have h := List.any_eq_false.mp hany
    simp only [Bool.not_false]
    exact (decide_eq_true (fun x hx => by simpa using h x hx)).symm
  | true =>
    obtain ⟨x, hx, hpx⟩ := List.any_eq_true.mp hany
    simp only [Bool.not_true]
    refine (decide_eq_false ?_).symm
    intro hall
    rw [hall x hx] at hpx
    exact absurd hpx (by simp)

instance (d : Dataset) (r : List Value) : Decidable (RowWithin d r) :=
  inferInstanceAs (Decidable (∀ j ∈ numericIdxs d,
    valueOutside (iqrBounds (colAt d j)).1 (iqrBounds (colAt d j)).2
      (r.getD j Value.null) = false))

/-- The dataset of `test_remove_outliers_iqr_removes_extreme_values`:
x = [1, 1, 1, 1000]. -/
def c4df : Dataset :=
  ⟨["x"], [[Value.num 1], [Value.num 1], [Value.num 1], [Value.num 1000]]⟩

/-- The dataset of `test_remove_outliers_iqr_no_numeric_columns_returns_unchanged`. -/
def c4noNum : Dataset := ⟨["name"], [[Value.str "a"], [Value.str "b"], [Value.str "c"]]⟩

/-- C4: `remove_outliers_iqr` keeps exactly the rows in which every numeric
column's value lies within that column's IQR bounds (so the result never
has more rows than the input); with no numeric columns the dataset is
returned unchanged; and on x = [1, 1, 1, 1000] the result is the three
rows of ones — 3 rows with max(x) = 1, the value 1000 being removed. -/
theorem remove_outliers_iqr_spec :
    (∀ d : Dataset, (remove_outliers_iqr d).rows.length ≤ d.rows.length) ∧
    (∀ d : Dataset, (remove_outliers_iqr d).rows =
      d.rows.filter (fun r => decide (RowWithin d r))) ∧
    (∀ d : Dataset, numericIdxs d = [] → remove_outliers_iqr d = d) ∧
    remove_outliers_iqr c4df = ⟨["x"], [[Value.num 1], [Value.num 1], [Value.num 1]]⟩ ∧
    (remove_outliers_iqr c4df).rows.length = 3 := by
  have hchar : ∀ d : Dataset, (remove_outliers_iqr d).rows =
      d.rows.filter (fun r => decide (RowWithin d r)) := by
    intro d
    unfold remove_outliers_iqr
    simp only
    refine List.filter_congr (fun r hr => ?_)
    rw [any_map_comp, not_any_eq_decide_ball]
    refine (decide_eq_decide).mpr ?_
    unfold RowWithin
    constructor
    · intro h j hj
      simpa using h j hj
    · intro h j hj
      simpa using h j hj
  have hconc : remove_outliers_iqr c4df =
      ⟨["x"], [[Value.num 1], [Value.num 1], [Value.num 1]]⟩ := by
    have hsort : List.insertionSort (fun a b => a ≤ b) [(1:ℚ), 1, 1, 1000] =
        [1, 1, 1, 1000] := by decide
    have hnn : nonNullNums (colAt c4df 0) = [(1:ℚ), 1, 1, 1000] := rfl
    have hb : iqrBounds (colAt c4df 0) = (-2989/8, 5003/8) := by
      simp [iqrBounds, hnn, quartileOf, hsort]
      norm_num
    have hidx : numericIdxs c4df = [0] := by decide
    unfold remove_outliers_iqr
    rw [hidx]
    simp only [List.map_cons, List.map_nil, hb]
    have h1 : valueOutside (-2989/8) (5003/8) (Value.num 1) = false := by
      simp [valueOutside]
      norm_num
    have h2 : valueOutside (-2989/8) (5003/8) (Value.num 1000) = true := by
      simp [valueOutside]
      norm_num
    simp [c4df, List.filter, h1, h2]
  refine ⟨?_, hchar, ?_, hconc, by rw [hconc]; rfl⟩
  · intro d
    rw [hchar d]
    exact List.length_filter_le _ _
  · intro d h
    rcases d with ⟨hdr, rows⟩
    unfold remove_outliers_iqr
    rw [h]
    simp

/-- Witness for C4: the no-numeric-columns dataset passes through unchanged,
and the concrete outlier dataset keeps 3 rows. -/
theorem remove_outliers_iqr_spec_witness :
    remove_outliers_iqr c4noNum = c4noNum ∧
    (remove_outliers_iqr c4df).rows.length = 3 :=
  ⟨remove_outliers_iqr_spec.2.2.1 c4noNum (by decide),
   remove_outliers_iqr_spec.2.2.2.2⟩

/-- Witness for C7: a concrete run with constant collaborators — the first
recorded load call targets `retail_products_clean` with overwrite mode. -/
theorem run_retail_etl_orchestration_witness :
    (⟨"retail_products_clean", "overwrite", 0, 1⟩ : LoadCall).mode = "overwrite" :=
  (run_retail_etl_orchestration
      (fun _ => (⟨["s"], []⟩, ⟨["p"], []⟩, ⟨["t"], []⟩)) id id id
      (fun s _ _ => s) 1000).2.2.1
    ⟨"retail_products_clean", "overwrite", 0, 1⟩ (by decide)
